import Mathlib

/-!
Shallow embedding of the Macau card-game core (Rust sources: `cards.rs`,
`cards/deck.rs`, `cards/pile.rs`, `cards/hand.rs`, `macau/variant.rs`,
`macau/events.rs`, `macau/mod.rs`).  Machine integers (`u8`, `usize`, `u32`)
are modelled as `Nat`; the values that appear never overflow their Rust
widths.  Rust panics (`unwrap`, `unimplemented!`) are modelled as `none`;
`Result<_, E>` as `Except E _`.  The `rand` shuffling capability is an
injected function `List Card → List Card`, and `rand::random` id generation
an injected function `Nat → Nat`.
-/

namespace Macau

/-- Rust `Suit` from `cards.rs` (`repr(u8)`: spades 0, hearts 1, diamonds 2, clubs 3). -/
inductive Suit where
  | Spades
  | Hearts
  | Diamonds
  | Clubs
deriving DecidableEq, Repr, Fintype

/-- Rust `Suit as u8`. -/
def Suit.toU8 : Suit → Nat
  | .Spades => 0
  | .Hearts => 1
  | .Diamonds => 2
  | .Clubs => 3

/-- Rust `Suit::try_from(u8)` from `cards.rs`. -/
def Suit.tryFrom (v : Nat) : Option Suit :=
  match v with
  | 0 => some .Spades
  | 1 => some .Hearts
  | 2 => some .Diamonds
  | 3 => some .Clubs
  | _ => none

/-- Rust `Suit::iter()` from `cards.rs`. -/
def Suit.list : List Suit := [.Spades, .Hearts, .Diamonds, .Clubs]

/-- Rust `Rank` from `cards.rs` (`repr(u8)`: ace 1 up to king 13). -/
inductive Rank where
  | Ace
  | Two
  | Three
  | Four
  | Five
  | Six
  | Seven
  | Eight
  | Nine
  | Ten
  | Jack
  | Queen
  | King
deriving DecidableEq, Repr, Fintype

/-- Rust `Rank as u8`. -/
def Rank.toU8 : Rank → Nat
  | .Ace => 1
  | .Two => 2
  | .Three => 3
  | .Four => 4
  | .Five => 5
  | .Six => 6
  | .Seven => 7
  | .Eight => 8
  | .Nine => 9
  | .Ten => 10
  | .Jack => 11
  | .Queen => 12
  | .King => 13

/-- Rust `Rank::try_from(u8)` from `cards.rs` (valid range 1..=13). -/
def Rank.tryFrom (v : Nat) : Option Rank :=
  match v with
  | 1 => some .Ace
  | 2 => some .Two
  | 3 => some .Three
  | 4 => some .Four
  | 5 => some .Five
  | 6 => some .Six
  | 7 => some .Seven
  | 8 => some .Eight
  | 9 => some .Nine
  | 10 => some .Ten
  | 11 => some .Jack
  | 12 => some .Queen
  | 13 => some .King
  | _ => none

/-- Rust `Rank::iter()` from `cards.rs`. -/
def Rank.list : List Rank :=
  [.Ace, .Two, .Three, .Four, .Five, .Six, .Seven, .Eight, .Nine, .Ten,
   .Jack, .Queen, .King]

/-- Rust `JokerColor` from `cards.rs` (`repr(u8)`: red 1, black 2, white 3). -/
inductive JokerColor where
  | Red
  | Black
  | White
deriving DecidableEq, Repr, Fintype

/-- Rust `JokerColor as u8`. -/
def JokerColor.toU8 : JokerColor → Nat
  | .Red => 1
  | .Black => 2
  | .White => 3

/-- Rust `JokerColor::try_from(u8)` from `cards.rs` (valid range 1..=3). -/
def JokerColor.tryFrom (v : Nat) : Option JokerColor :=
  match v with
  | 1 => some .Red
  | 2 => some .Black
  | 3 => some .White
  | _ => none

/-- Rust `Card` from `cards.rs`: a `u8` with layout `00SSRRRR` (jokers use
`RRRR = 1111` and the color in the high nibble). -/
structure Card where
  val : Nat
deriving DecidableEq, Repr

/-- Rust `Card::new(suit, rank)`: `((suit as u8) << 4) | (rank as u8)`. -/
def Card.new (suit : Suit) (rank : Rank) : Card :=
  ⟨(suit.toU8 <<< 4) ||| rank.toU8⟩

/-- Rust `Card::new_joker(color)`: `((color as u8) << 4) | 0b1111`. -/
def Card.new_joker (color : JokerColor) : Card :=
  ⟨(color.toU8 <<< 4) ||| 0b1111⟩

/-- Rust `Card::is_standard_card`: `(self.0 & 0b1111) <= Rank::King as u8`. -/
def Card.is_standard_card (c : Card) : Bool :=
  (c.val &&& 0b1111) ≤ 13

/-- Rust `Card::is_joker`: `(self.0 & 0b1111) == 0b1111`. -/
def Card.is_joker (c : Card) : Bool :=
  (c.val &&& 0b1111) == 0b1111

/-- Rust `Card::suit`. -/
def Card.suit (c : Card) : Option Suit :=
  if c.is_standard_card then Suit.tryFrom (c.val >>> 4) else none

/-- Rust `Card::rank`. -/
def Card.rank (c : Card) : Option Rank :=
  if c.is_standard_card then Rank.tryFrom (c.val &&& 0b1111) else none

/-- Rust `Card::joker_color`. -/
def Card.joker_color (c : Card) : Option JokerColor :=
  if c.is_joker then JokerColor.tryFrom (c.val >>> 4) else none

/-! ## Deck generation (`cards/deck.rs`) -/

/-- The body of one iteration of the `for _deck in 0..n` loop of
`generate_n_decks`: all 52 suit×rank cards in suit-major order, then the
nested `if jokers >= 1 / >= 2 / >= 3` pushes. -/
def deckOnce (jokers : Nat) : List Card :=
  (Suit.list.flatMap (fun suit => Rank.list.map (fun rank => Card.new suit rank)))
    ++
    (if jokers ≥ 1 then
        [Card.new_joker .Red]
        ++ (if jokers ≥ 2 then
              [Card.new_joker .Black]
              ++ (if jokers ≥ 3 then [Card.new_joker .White] else [])
            else [])
      else [])

/-- Rust `generate_n_decks(n, jokers)` from `cards/deck.rs`.  The
`unimplemented!` panic for `jokers > 3` is modelled as `none`.  The loop
body does not use the loop index, so the `n` iterations are
`List.replicate n` joined together. -/
def generate_n_decks (n jokers : Nat) : Option (List Card) :=
  if jokers > 3 then none
  else some (List.flatten (List.replicate n (deckOnce jokers)))

/-- Rust `generate_deck(jokers)` from `cards/deck.rs`. -/
def generate_deck (jokers : Nat) : Option (List Card) :=
  generate_n_decks 1 jokers

/-! ## Pile (`cards/pile.rs`)

`Vec<Card>` is a `List Card` (index 0 first).  `Vec::swap_remove(i)` and
`Vec::swap(i, j)` are modelled below; out-of-range indices (a Rust panic,
unreachable from the public API) leave the list unchanged and yield `none`.
`rand::thread_rng` shuffling is an injected function `ρ`; the theorems
assume only that `ρ` preserves the length (true of any permutation). -/

/-- Rust `Vec::swap_remove(i)`: return element `i`, move the last element into
its place, shrink by one. -/
def swapRemove (l : List Card) (i : Nat) : Option Card × List Card :=
  match l[i]?, l.getLast? with
  | some x, some y => (some x, (l.set i y).dropLast)
  | _, _ => (none, l)

/-- Rust `Vec::swap(i, j)`. -/
def swapIdx (l : List Card) (i j : Nat) : List Card :=
  match l[i]?, l[j]? with
  | some x, some y => (l.set i y).set j x
  | _, _ => l

/-- Rust `Pile` from `cards/pile.rs`. -/
structure Pile where
  cards : List Card
  accessible : Nat
deriving DecidableEq, Repr

/-- Rust `Pile::new_empty()`. -/
def Pile.new_empty : Pile := ⟨[], 0⟩

/-- Rust `Pile::with_capacity(n)` (capacity is not observable). -/
def Pile.with_capacity (_capacity : Nat) : Pile := ⟨[], 0⟩

/-- Rust `Pile::of(cards)`. -/
def Pile.of (cards : List Card) : Pile := ⟨cards, 0⟩

/-- Rust `Pile::add_card(card)`: push onto the pending tail. -/
def Pile.add_card (p : Pile) (card : Card) : Pile :=
  ⟨p.cards ++ [card], p.accessible⟩

/-- Rust `Pile::add_cards(cards)`. -/
def Pile.add_cards (p : Pile) (cards : List Card) : Pile :=
  ⟨p.cards ++ cards, p.accessible⟩

/-- Rust `Pile::add_on_top(card)`: push, swap into the boundary slot, advance
`accessible`. -/
def Pile.add_on_top (p : Pile) (card : Card) : Pile :=
  let cards := p.cards ++ [card]
  let last := cards.length - 1
  ⟨swapIdx cards p.accessible last, p.accessible + 1⟩

/-- Rust `Pile::shuffle()` with the injected permutation `ρ` standing for the
`rand` shuffle: permute all cards, reset `accessible` to the length. -/
def Pile.shuffle (ρ : List Card → List Card) (p : Pile) : Pile :=
  let cards := ρ p.cards
  ⟨cards, cards.length⟩

/-- Rust `Pile::pop()`: `None` on a fully empty pile; lazily shuffle when the
accessible region is empty; then decrement `accessible` and `swap_remove`
at the new boundary. -/
def Pile.pop (ρ : List Card → List Card) (p : Pile) : Option Card × Pile :=
  if p.cards.isEmpty then (none, p)
  else
    let p1 := if p.accessible = 0 then p.shuffle ρ else p
    let acc := p1.accessible - 1
    let r := swapRemove p1.cards acc
    (r.1, ⟨r.2, acc⟩)

/-- Rust `Pile::seek()`: like `pop` it lazily shuffles, but only reads the card
at `accessible - 1`. -/
def Pile.seek (ρ : List Card → List Card) (p : Pile) : Option Card × Pile :=
  if p.cards.isEmpty then (none, p)
  else
    let p1 := if p.accessible = 0 then p.shuffle ρ else p
    (p1.cards[p1.accessible - 1]?, p1)

/-- Rust `Pile::try_seek()`: non-mutating peek, `None` when the accessible
region is empty. -/
def Pile.try_seek (p : Pile) : Option Card :=
  if p.cards.isEmpty then none
  else if p.accessible = 0 then none
  else p.cards[p.accessible - 1]?

/-- Rust `Pile::is_empty()`. -/
def Pile.is_empty (p : Pile) : Bool := p.cards.isEmpty

/-- Rust `Pile::count_accessible()`. -/
def Pile.count_accessible (p : Pile) : Nat := p.accessible

/-- Rust `Pile::count_total()`. -/
def Pile.count_total (p : Pile) : Nat := p.cards.length

/-- Rust `PileEmptyError` from `cards/pile.rs`. -/
inductive PileEmptyError where
  | mk
deriving DecidableEq, Repr

/-! ## Hand (`cards/hand.rs`)

`Hand<SortedCard>` keeps a `SortedVec` ordered by `SortedCard`'s `Ord`;
`SortedCard` is a transparent wrapper around `Card`, so the hand is a
sorted `List Card`. -/

/-- Rust `SortedCard::cmp` from `cards/hand.rs` (the `unwrap`s on
suit/rank/joker-color are total on cards built by the constructors; out of
that range they are modelled by a default `0` ordinal). -/
def SortedCard.cmp (a b : Card) : Ordering :=
  if a = b then .eq
  else if a.is_joker && b.is_joker then
    compare ((a.joker_color.map JokerColor.toU8).getD 0)
      ((b.joker_color.map JokerColor.toU8).getD 0)
  else if a.is_joker then .gt
  else if b.is_joker then .lt
  else
    let sa := (a.suit.map Suit.toU8).getD 0
    let sb := (b.suit.map Suit.toU8).getD 0
    let ra := (a.rank.map Rank.toU8).getD 0
    let rb := (b.rank.map Rank.toU8).getD 0
    if sa = sb then compare ra rb else compare sa sb

/-- Rust `SortedVec::insert`: keep the list sorted under `SortedCard.cmp`
(ties can only arise between equal cards, so the position among equals is
canonical). -/
def insertSorted (c : Card) : List Card → List Card
  | [] => [c]
  | x :: xs =>
    match SortedCard.cmp c x with
    | .gt => x :: insertSorted c xs
    | _ => c :: x :: xs

/-- Rust `Hand` from `cards/hand.rs` (specialised to `SortedCard`). -/
structure Hand where
  cards : List Card
deriving DecidableEq, Repr

/-- Rust `Hand::new()`. -/
def Hand.new : Hand := ⟨[]⟩

/-- Rust `Hand::add_card(card)` = `SortedVec::insert`. -/
def Hand.add_card (h : Hand) (card : Card) : Hand :=
  ⟨insertSorted card h.cards⟩

/-- Rust `Pile::deal_to(other)`: pop one card and `deal` it into the hand; on an
entirely empty pile report `PileEmptyError`.  The Rust method mutates both
sides, so the model returns the outcome together with both updated states. -/
def Pile.deal_to (ρ : List Card → List Card) (p : Pile) (h : Hand) :
    Except PileEmptyError Unit × Pile × Hand :=
  match p.pop ρ with
  | (some card, p1) => (Except.ok (), p1, h.add_card card)
  | (none, p1) => (Except.error .mk, p1, h)

/-! ## Variant rule engine (`macau/variant.rs`) -/

/-- Rust `MacauVariant` from `macau/variant.rs` (`u8` fields as `Nat`). -/
structure MacauVariant where
  initial_hand : Nat
  cumulate_war : Bool
  war_king_of_spades : Nat
  war_king_of_hearts : Nat
  war_king_of_diamonds : Nat
  war_king_of_clubs : Nat
  cumulate_blocks : Bool
  queen_of_spades_on_everything : Bool
  queen_of_hearts_on_everything : Bool
  queen_of_diamonds_on_everything : Bool
  queen_of_clubs_on_everything : Bool
  override_jack : Bool
  override_ace : Bool
deriving DecidableEq, Repr

/-- Rust `MacauVariant::default()`. -/
def MacauVariant.default : MacauVariant where
  initial_hand := 5
  cumulate_war := true
  war_king_of_spades := 5
  war_king_of_hearts := 5
  war_king_of_diamonds := 0
  war_king_of_clubs := 0
  cumulate_blocks := true
  queen_of_spades_on_everything := true
  queen_of_hearts_on_everything := true
  queen_of_diamonds_on_everything := false
  queen_of_clubs_on_everything := false
  override_jack := true
  override_ace := true

/-- Rust `MacauVariant::get_war_value(card)`. -/
def MacauVariant.get_war_value (v : MacauVariant) (card : Card) : Nat :=
  match card.rank with
  | some .Two => 2
  | some .Three => 3
  | some .King =>
    match card.suit with
    | some .Spades => v.war_king_of_spades
    | some .Hearts => v.war_king_of_hearts
    | some .Diamonds => v.war_king_of_diamonds
    | some .Clubs => v.war_king_of_clubs
    | none => 0
  | _ => 0

/-- Rust `MacauVariant::is_war_card(card)`. -/
def MacauVariant.is_war_card (v : MacauVariant) (card : Card) : Bool :=
  v.get_war_value card > 0

/-- Rust `MacauVariant::is_action_card(card)` (the final two Rust arms are
`_ if card.is_joker() => true` and `_ => false`). -/
def MacauVariant.is_action_card (v : MacauVariant) (card : Card) : Bool :=
  match card.rank with
  | some .Ace => true
  | some .Two => true
  | some .Three => true
  | some .Four => true
  | some .Jack => true
  | some .Queen =>
    match card.suit with
    | some .Spades => v.queen_of_spades_on_everything
    | some .Hearts => v.queen_of_hearts_on_everything
    | some .Diamonds => v.queen_of_diamonds_on_everything
    | some .Clubs => v.queen_of_clubs_on_everything
    | none => false
  | some .King => v.get_war_value card > 0
  | _ => if card.is_joker then true else false

/-! ## Players, events and the event manager (`macau/mod.rs`, `macau/events.rs`) -/

/-- Rust `MacauPlayer` from `macau/mod.rs` (`id: u32` as `Nat`). -/
structure MacauPlayer where
  id : Nat
  name : String
  hand : Hand
deriving DecidableEq, Repr

/-- Rust `impl PartialEq for MacauPlayer`: equality by id only. -/
def MacauPlayer.eqById (a b : MacauPlayer) : Bool :=
  a.id == b.id

/-- Rust `MacauAction` from `macau/mod.rs`. -/
inductive MacauAction where
  | Play (card : Card)
  | PlayMultiple (cards : List Card)
  | Draw
  | DeclareMacau
  | Pass
deriving DecidableEq, Repr

/-- Rust `GameEndReason` from `macau/mod.rs`. -/
inductive GameEndReason where
  | PlayerWon (player : MacauPlayer)
  | NotEnoughPlayers
deriving DecidableEq, Repr

/-- Rust `MacauEvent` from `macau/mod.rs` (borrowed slices become values;
`your_cards: &[SortedCard]` is the sorted card list of one hand). -/
inductive MacauEvent where
  | GameStart (players : List MacauPlayer) (top_card : Card)
      (your_cards : List Card)
  | TurnStart (player : MacauPlayer)
  | TurnBlocked (player : MacauPlayer)
  | PlayerAction (player : MacauPlayer) (action : MacauAction)
  | TurnEnd (player : MacauPlayer)
  | AddCards (player : MacauPlayer) (cards : List Card)
  | GameEnd (reason : GameEndReason)
deriving DecidableEq, Repr

/-- The `your_cards` field of a delivered event, when it has one. -/
def MacauEvent.yourCards : MacauEvent → Option (List Card)
  | .GameStart _ _ your_cards => some your_cards
  | _ => none

/-- Rust `EventManager` from `macau/events.rs`.  A subscriber's handler is an
arbitrary side-effecting closure; the observable behaviour of a
notification is which `(player_id, event)` pairs are delivered, so the
registry keeps the ids in registration order and `notify_customized`
returns the delivery list. -/
structure EventManager where
  subscribers : List Nat
deriving DecidableEq, Repr

/-- Rust `EventManager::new()`. -/
def EventManager.new : EventManager := ⟨[]⟩

/-- Rust `EventManager::subscribe(player_id, handler)` (the handler itself is
opaque; registration order is kept). -/
def EventManager.subscribe (em : EventManager) (player_id : Nat) : EventManager :=
  ⟨em.subscribers ++ [player_id]⟩

/-- Rust `EventManager::notify_customized(game, func)`: for each registered
`(id, subscriber)` in order, build `func(game, id)` and deliver it to that
subscriber.  The result is the list of deliveries. -/
def EventManager.notify_customized {γ α : Type} (em : EventManager) (game : γ)
    (func : γ → Nat → α) : List (Nat × α) :=
  em.subscribers.map (fun id => (id, func game id))

/-! ## Game setup (`macau/mod.rs`) -/

/-- Rust `MacauGame` from `macau/mod.rs`. -/
structure MacauGame where
  variant : MacauVariant
  pile : Pile
  players : List MacauPlayer
  event_manager : EventManager
deriving DecidableEq, Repr

/-- Rust `MacauGame::get_player_by_id(id)`: first player whose id matches. -/
def MacauGame.get_player_by_id (g : MacauGame) (id : Nat) : Option MacauPlayer :=
  g.players.find? (fun player => player.id == id)

/-- The `GameStart` closure passed to `notify_customized` in
`MacauGame::new`: `your_cards` comes from `get_player_by_id(id).unwrap()`
(the `unwrap` panic on an unknown id is modelled as `none`). -/
def gameStartBuilder (top_card : Card) (g : MacauGame) (id : Nat) :
    Option MacauEvent :=
  (g.get_player_by_id id).map
    (fun p => MacauEvent.GameStart g.players top_card p.hand.cards)

/-- The inner `for _ in 0..initial_hand` loop of `MacauGame::new`: pop `n`
cards into one player's hand; a failed `pop().unwrap()` is `none`. -/
def dealHand (ρ : List Card → List Card) (pile : Pile) (player : MacauPlayer) :
    Nat → Option (Pile × MacauPlayer)
  | 0 => some (pile, player)
  | n + 1 =>
    match pile.pop ρ with
    | (some card, pile1) =>
      dealHand ρ pile1 { player with hand := player.hand.add_card card } n
    | (none, _) => none

/-- The outer `for player in &mut game.players` loop of `MacauGame::new`. -/
def dealAll (ρ : List Card → List Card) (pile : Pile) (n : Nat) :
    List MacauPlayer → Option (Pile × List MacauPlayer)
  | [] => some (pile, [])
  | player :: rest =>
    match dealHand ρ pile player n with
    | none => none
    | some (pile1, player1) =>
      match dealAll ρ pile1 n rest with
      | none => none
      | some (pile2, rest1) => some (pile2, player1 :: rest1)

/-- Rust `MacauGame::new(variant, player_names)` from `macau/mod.rs`.
`idOf i` is the `rand::random()` id drawn for the `i`-th player and `ρ` the
injected shuffle; the `unwrap` panics (a pop or the final seek failing) are
modelled as `none`.  Besides the constructed game, the delivery list of the
`GameStart` notification is returned. -/
def MacauGame.new (variant : MacauVariant) (player_names : List String)
    (idOf : Nat → Nat) (ρ : List Card → List Card) :
    Option (MacauGame × List (Nat × Option MacauEvent)) :=
  let players := player_names.enum.map
    (fun p => { id := idOf p.1, name := p.2, hand := Hand.new : MacauPlayer })
  match generate_deck 3 with
  | none => none
  | some deck =>
    match dealAll ρ (Pile.of deck) variant.initial_hand players with
    | none => none
    | some (pile1, players1) =>
      let g1 : MacauGame :=
        { variant := variant, pile := pile1, players := players1,
          event_manager := EventManager.new }
      let s := g1.pile.seek ρ
      match s.1 with
      | none => none
      | some top_card =>
        let g2 := { g1 with pile := s.2 }
        some (g2, g2.event_manager.notify_customized g2 (gameStartBuilder top_card))

/-! ## Auxiliary notions used by the statements -/

/-- The only property of the injected shuffle the theorems use: it
preserves the number of cards (true of every permutation, in particular of
the Fisher–Yates shuffle of `rand`). -/
def LenPres (ρ : List Card → List Card) : Prop :=
  ∀ l, (ρ l).length = l.length

/-- The pile invariant `0 ≤ accessible ≤ total` (the lower bound is
inherent to `Nat`). -/
def Pile.inv (p : Pile) : Prop :=
  p.accessible ≤ p.cards.length

/-- One public `Pile` call, with the shuffle randomness it may consume. -/
inductive PileOp where
  | popOp (ρ : List Card → List Card)
  | seekOp (ρ : List Card → List Card)
  | trySeekOp
  | addCardOp (card : Card)
  | addOnTopOp (card : Card)
  | shuffleOp (ρ : List Card → List Card)
  | dealToOp (ρ : List Card → List Card)

/-- The randomness carried by an op is a genuine shuffle. -/
def PileOp.good : PileOp → Prop
  | .popOp ρ => LenPres ρ
  | .seekOp ρ => LenPres ρ
  | .shuffleOp ρ => LenPres ρ
  | .dealToOp ρ => LenPres ρ
  | _ => True

/-- The state transformation of one public call (`try_seek` takes `&self`
and cannot change the pile; `deal_to`'s pile effect is its `pop`). -/
def PileOp.apply (p : Pile) : PileOp → Pile
  | .popOp ρ => (p.pop ρ).2
  | .seekOp ρ => (p.seek ρ).2
  | .trySeekOp => p
  | .addCardOp card => p.add_card card
  | .addOnTopOp card => p.add_on_top card
  | .shuffleOp ρ => p.shuffle ρ
  | .dealToOp ρ => (p.deal_to ρ Hand.new).2.1

/-- Run a sequence of public calls. -/
def applyOps (p : Pile) : List PileOp → Pile
  | [] => p
  | op :: ops => applyOps (op.apply p) ops

/-- Replace the hand of every player other than the one(s) with id `id`,
leaving ids, names and the subscriber's own hand untouched: the variation
of a run considered by the privacy property. -/
def alterOthers (g : MacauGame) (id : Nat) (f : MacauPlayer → Hand) : MacauGame :=
  { g with
    players := g.players.map
      (fun p => if p.id = id then p else { p with hand := f p }) }

/-- A two-player fixture used by concrete witnesses. -/
def gFix : MacauGame where
  variant := MacauVariant.default
  pile := Pile.new_empty
  players :=
    [⟨1, "A", ⟨[Card.new .Spades .Five]⟩⟩, ⟨2, "B", ⟨[Card.new .Hearts .Nine]⟩⟩]
  event_manager := ⟨[1, 2]⟩

/-! ## Theorems -/

theorem length_insertSorted (c : Card) (l : List Card) :
    (insertSorted c l).length = l.length + 1 := by
  induction l with
  | nil => rfl
  | cons x xs ih =>
    simp only [insertSorted]
    split <;> simp [ih]

theorem swapRemove_spec (l : List Card) (i : Nat) (hi : i < l.length) :
    (swapRemove l i).1.isSome = true ∧ (swapRemove l i).2.length + 1 = l.length := by
  have hne : l ≠ [] := List.ne_nil_of_length_pos (Nat.lt_of_le_of_lt (Nat.zero_le i) hi)
  have hx : l[i]? = some l[i] := List.getElem?_eq_getElem hi
  obtain ⟨y, hy⟩ : ∃ y, l.getLast? = some y :=
    Option.isSome_iff_exists.mp (by rw [List.getLast?_isSome]; exact hne)
  have hlen : ((l.set i y).dropLast).length + 1 = l.length := by
    rw [List.length_dropLast, List.length_set]
    omega
  rw [swapRemove, hx, hy]
  exact ⟨rfl, hlen⟩

theorem swapIdx_length (l : List Card) (i j : Nat) :
    (swapIdx l i j).length = l.length := by
  unfold swapIdx
  split <;> simp

theorem Pile.pop_empty (ρ : List Card → List Card) (p : Pile) (h : p.cards = []) :
    p.pop ρ = (none, p) := by
  simp [Pile.pop, h]

theorem Pile.pop_pos (ρ : List Card → List Card) (p : Pile) (hρ : LenPres ρ)
    (hinv : p.inv) (hlen : 0 < p.cards.length) :
    (p.pop ρ).1.isSome = true ∧
    (p.pop ρ).2.cards.length + 1 = p.cards.length ∧
    (p.pop ρ).2.accessible + 1
      = (if p.accessible = 0 then p.cards.length else p.accessible) ∧
    (p.pop ρ).2.inv := by
  have hne : p.cards ≠ [] := by
    intro h
    rw [h] at hlen
    exact Nat.lt_irrefl 0 hlen
  have hemp : p.cards.isEmpty = false := by simp [hne]
  by_cases hacc : p.accessible = 0
  · have hlen2 : (ρ p.cards).length = p.cards.length := hρ p.cards
    have hsub : (ρ p.cards).length - 1 < (ρ p.cards).length := by omega
    obtain ⟨hs, hl⟩ := swapRemove_spec (ρ p.cards) ((ρ p.cards).length - 1) hsub
    simp only [Pile.pop, hemp, Bool.false_eq_true, if_false, hacc, if_pos, Pile.shuffle,
      Pile.inv]
    refine ⟨hs, by omega, by omega, by omega⟩
  · have hge : 1 ≤ p.accessible := Nat.one_le_iff_ne_zero.mpr hacc
    have hinv2 : p.accessible ≤ p.cards.length := hinv
    have hsub : p.accessible - 1 < p.cards.length := by omega
    obtain ⟨hs, hl⟩ := swapRemove_spec p.cards (p.accessible - 1) hsub
    simp only [Pile.pop, hemp, Bool.false_eq_true, if_false, hacc, if_neg, Pile.inv]
    refine ⟨hs, by omega, by omega, by omega⟩

theorem Pile.seek_empty (ρ : List Card → List Card) (p : Pile) (h : p.cards = []) :
    p.seek ρ = (none, p) := by
  simp [Pile.seek, h]

theorem Pile.seek_pos (ρ : List Card → List Card) (p : Pile) (hρ : LenPres ρ)
    (hinv : p.inv) (hlen : 0 < p.cards.length) :
    (p.seek ρ).1.isSome = true ∧
    (p.seek ρ).2.cards.length = p.cards.length ∧
    (p.seek ρ).2.accessible
      = (if p.accessible = 0 then p.cards.length else p.accessible) ∧
    0 < (p.seek ρ).2.accessible ∧
    (p.seek ρ).2.inv := by
  have hne : p.cards ≠ [] := by
    intro h
    rw [h] at hlen
    exact Nat.lt_irrefl 0 hlen
  have hemp : p.cards.isEmpty = false := by simp [hne]
  by_cases hacc : p.accessible = 0
  · have hlen2 : (ρ p.cards).length = p.cards.length := hρ p.cards
    have hsub : (ρ p.cards).length - 1 < (ρ p.cards).length := by omega
    have heq : p.seek ρ
        = ((ρ p.cards)[(ρ p.cards).length - 1]?, ⟨ρ p.cards, (ρ p.cards).length⟩) := by
      simp [Pile.seek, hemp, hacc, Pile.shuffle]
    rw [heq]
    refine ⟨?_, by simpa using hlen2, by simp [hacc, hlen2], by simp; omega, ?_⟩
    · rw [List.getElem?_eq_getElem hsub]
      rfl
    · show (ρ p.cards).length ≤ (ρ p.cards).length
      exact Nat.le_refl _
  · have hinv2 : p.accessible ≤ p.cards.length := hinv
    have hsub : p.accessible - 1 < p.cards.length := by omega
    have heq : p.seek ρ = (p.cards[p.accessible - 1]?, p) := by
      simp [Pile.seek, hemp, hacc]
    rw [heq]
    refine ⟨?_, rfl, by simp [hacc], by show 0 < p.accessible; omega, hinv⟩
    rw [List.getElem?_eq_getElem hsub]
    rfl

theorem Pile.try_seek_isSome (p : Pile) (hinv : p.inv) (hacc : 0 < p.accessible) :
    p.try_seek.isSome = true := by
  have hinv2 : p.accessible ≤ p.cards.length := hinv
  have hlen : 0 < p.cards.length := by omega
  have hne : p.cards ≠ [] := by
    intro h
    rw [h] at hlen
    exact Nat.lt_irrefl 0 hlen
  have hemp : p.cards.isEmpty = false := by simp [hne]
  have hsub : p.accessible - 1 < p.cards.length := by omega
  have hget : p.cards[p.accessible - 1]? = some (p.cards[p.accessible - 1]) :=
    List.getElem?_eq_getElem hsub
  have hacc2 : ¬ (p.accessible = 0) := by omega
  simp [Pile.try_seek, hemp, hacc2, hget]

theorem Pile.deal_to_spec (ρ : List Card → List Card) (p : Pile) (h : Hand)
    (hρ : LenPres ρ) (hinv : p.inv) :
    ((p.deal_to ρ h).1 = Except.error PileEmptyError.mk ↔ p.cards.length = 0) ∧
    (p.cards.length = 0 → (p.deal_to ρ h).2.1 = p ∧ (p.deal_to ρ h).2.2 = h) := by
  by_cases hlen : p.cards.length = 0
  · have hnil : p.cards = [] := List.length_eq_zero.mp hlen
    have hp : p.pop ρ = (none, p) := Pile.pop_empty ρ p hnil
    refine ⟨?_, fun _ => ?_⟩
    · simp [Pile.deal_to, hp, hlen]
    · simp [Pile.deal_to, hp]
  · have hpos : 0 < p.cards.length := Nat.pos_of_ne_zero hlen
    obtain ⟨hs, -, -, -⟩ := Pile.pop_pos ρ p hρ hinv hpos
    obtain ⟨c, hc⟩ := Option.isSome_iff_exists.mp hs
    have hpop : p.pop ρ = (some c, (p.pop ρ).2) := by
      rcases hp : p.pop ρ with ⟨fst, snd⟩
      rw [hp] at hc
      simp only at hc
      rw [hc]
    refine ⟨?_, fun hzero => absurd hzero hlen⟩
    constructor
    · intro herr
      rw [Pile.deal_to, hpop] at herr
      simp at herr
    · intro hzero
      exact absurd hzero hlen

theorem PileOp.apply_inv (p : Pile) (op : PileOp) (hg : op.good) (hinv : p.inv) :
    (op.apply p).inv := by
  cases op with
  | popOp ρ =>
    by_cases hlen : p.cards.length = 0
    · have hnil : p.cards = [] := List.length_eq_zero.mp hlen
      show (p.pop ρ).2.inv
      rw [Pile.pop_empty ρ p hnil]
      exact hinv
    · exact (Pile.pop_pos ρ p hg hinv (Nat.pos_of_ne_zero hlen)).2.2.2
  | seekOp ρ =>
    by_cases hlen : p.cards.length = 0
    · have hnil : p.cards = [] := List.length_eq_zero.mp hlen
      show (p.seek ρ).2.inv
      rw [Pile.seek_empty ρ p hnil]
      exact hinv
    · exact (Pile.seek_pos ρ p hg hinv (Nat.pos_of_ne_zero hlen)).2.2.2.2
  | trySeekOp => exact hinv
  | addCardOp card =>
    show p.accessible ≤ (p.cards ++ [card]).length
    rw [List.length_append]
    have h2 : p.accessible ≤ p.cards.length := hinv
    omega
  | addOnTopOp card =>
    show p.accessible + 1
        ≤ (swapIdx (p.cards ++ [card]) p.accessible ((p.cards ++ [card]).length - 1)).length
    rw [swapIdx_length, List.length_append]
    have h2 : p.accessible ≤ p.cards.length := hinv
    simp
    omega
  | shuffleOp ρ =>
    show (ρ p.cards).length ≤ (ρ p.cards).length
    exact Nat.le_refl _
  | dealToOp ρ =>
    show ((p.deal_to ρ Hand.new).2.1).inv
    by_cases hlen : p.cards.length = 0
    · have hnil : p.cards = [] := List.length_eq_zero.mp hlen
      rw [Pile.deal_to, Pile.pop_empty ρ p hnil]
      exact hinv
    · have hpos : 0 < p.cards.length := Nat.pos_of_ne_zero hlen
      obtain ⟨hs, -, -, hi⟩ := Pile.pop_pos ρ p hg hinv hpos
      obtain ⟨c, hc⟩ := Option.isSome_iff_exists.mp hs
      have hpop : p.pop ρ = (some c, (p.pop ρ).2) := by
        rcases hp : p.pop ρ with ⟨fst, snd⟩
        rw [hp] at hc
        simp only at hc
        rw [hc]
      rw [Pile.deal_to, hpop]
      exact hi

theorem applyOps_inv (ops : List PileOp) (p : Pile) (hinv : p.inv)
    (hg : ∀ op ∈ ops, op.good) : (applyOps p ops).inv := by
  induction ops generalizing p with
  | nil => exact hinv
  | cons op ops ih =>
    rw [applyOps]
    exact ih (op.apply p) (PileOp.apply_inv p op (hg op (List.mem_cons_self op ops)) hinv)
      (fun o ho => hg o (List.mem_cons_of_mem op ho))

/-- C3: on a pile with `accessible == 0` and `total > 0`, the next `pop`
returns a card and leaves `accessible = total - 1`, and the next `seek`
returns a card and leaves `accessible = total`: both auto-shuffle instead
of failing when only the accessible region is empty. -/
theorem C3_lazy_reshuffle (p : Pile) (ρ : List Card → List Card) (hρ : LenPres ρ)
    (hacc : p.accessible = 0) (hlen : 0 < p.cards.length) :
    (p.pop ρ).1.isSome = true ∧
    (p.pop ρ).2.accessible = p.cards.length - 1 ∧
    (p.seek ρ).1.isSome = true ∧
    (p.seek ρ).2.accessible = p.cards.length := by
  have hinv : p.inv := by
    show p.accessible ≤ p.cards.length
    omega
  obtain ⟨h1, -, h3, -⟩ := Pile.pop_pos ρ p hρ hinv hlen
  obtain ⟨h4, -, h5, -, -⟩ := Pile.seek_pos ρ p hρ hinv hlen
  rw [hacc] at h3 h5
  simp only [if_pos] at h3 h5
  exact ⟨h1, by omega, h4, h5⟩

/-- Witness for `C3_lazy_reshuffle` at a concrete one-card pile with the
identity shuffle. -/
theorem C3_witness :
    ((Pile.of [Card.new .Spades .Five]).pop id).1.isSome = true ∧
    ((Pile.of [Card.new .Spades .Five]).pop id).2.accessible
      = (Pile.of [Card.new .Spades .Five]).cards.length - 1 ∧
    ((Pile.of [Card.new .Spades .Five]).seek id).1.isSome = true ∧
    ((Pile.of [Card.new .Spades .Five]).seek id).2.accessible
      = (Pile.of [Card.new .Spades .Five]).cards.length :=
  C3_lazy_reshuffle (Pile.of [Card.new .Spades .Five]) id (fun _ => rfl) rfl
    (by decide)

/-- C4: `deal_to` fails with the pile-empty error iff the pile holds zero
cards in total (never merely because zero are accessible), and on that
failure both the pile and the target hand are unchanged. -/
theorem C4_deal_to_empty (p : Pile) (h : Hand) (ρ : List Card → List Card)
    (hρ : LenPres ρ) (hinv : p.inv) :
    ((p.deal_to ρ h).1 = Except.error PileEmptyError.mk ↔ p.cards.length = 0) ∧
    (p.cards.length = 0 → (p.deal_to ρ h).2.1 = p ∧ (p.deal_to ρ h).2.2 = h) :=
  Pile.deal_to_spec ρ p h hρ hinv

/-- Witness for `C4_deal_to_empty` at the empty pile and the identity
shuffle. -/
theorem C4_witness :
    ((Pile.new_empty.deal_to id Hand.new).1 = Except.error PileEmptyError.mk
        ↔ Pile.new_empty.cards.length = 0) ∧
    (Pile.new_empty.cards.length = 0 →
      (Pile.new_empty.deal_to id Hand.new).2.1 = Pile.new_empty ∧
      (Pile.new_empty.deal_to id Hand.new).2.2 = Hand.new) :=
  C4_deal_to_empty Pile.new_empty Hand.new id (fun _ => rfl) (Nat.le_refl 0)

/-- C6: from any constructor state (`accessible = 0`, any card list —
covering `new_empty`, `with_capacity` and `of`), every sequence of public
calls keeps `0 ≤ accessible ≤ total`; and per call, `total` drops by
exactly one on a successful `pop`/`deal_to`, stays put on a failed one and
on `seek`/`try_seek`/`shuffle`, and grows by exactly one on
`add_card`/`add_on_top`. -/
theorem C6_pile_invariant :
    (∀ (p0 : Pile) (ops : List PileOp), p0.accessible = 0 →
        (∀ op ∈ ops, op.good) →
        0 ≤ (applyOps p0 ops).accessible ∧
        (applyOps p0 ops).accessible ≤ (applyOps p0 ops).cards.length) ∧
    (∀ (p : Pile) (ρ : List Card → List Card) (card : Card) (h : Hand),
        LenPres ρ → p.inv →
        ((p.pop ρ).1.isSome = true →
          (p.pop ρ).2.cards.length + 1 = p.cards.length) ∧
        ((p.pop ρ).1 = none → (p.pop ρ).2.cards.length = p.cards.length) ∧
        (p.seek ρ).2.cards.length = p.cards.length ∧
        (PileOp.trySeekOp.apply p).cards.length = p.cards.length ∧
        (p.shuffle ρ).cards.length = p.cards.length ∧
        (p.add_card card).cards.length = p.cards.length + 1 ∧
        (p.add_on_top card).cards.length = p.cards.length + 1 ∧
        ((p.deal_to ρ h).1 = Except.ok () →
          (p.deal_to ρ h).2.1.cards.length + 1 = p.cards.length) ∧
        ((p.deal_to ρ h).1 = Except.error PileEmptyError.mk →
          (p.deal_to ρ h).2.1.cards.length = p.cards.length)) := by
  constructor
  · intro p0 ops hacc hg
    refine ⟨Nat.zero_le _, ?_⟩
    exact applyOps_inv ops p0 (by show p0.accessible ≤ _; omega) hg
  · intro p ρ card h hρ hinv
    by_cases hlen : p.cards.length = 0
    · have hnil : p.cards = [] := List.length_eq_zero.mp hlen
      have hp : p.pop ρ = (none, p) := Pile.pop_empty ρ p hnil
      have hsk : p.seek ρ = (none, p) := Pile.seek_empty ρ p hnil
      refine ⟨?_, ?_, ?_, rfl, ?_, ?_, ?_, ?_, ?_⟩
      · intro hs
        rw [hp] at hs
        simp at hs
      · intro _
        rw [hp]
      · rw [hsk]
      · show (ρ p.cards).length = p.cards.length
        exact hρ p.cards
      · show (p.cards ++ [card]).length = p.cards.length + 1
        simp
      · show (swapIdx (p.cards ++ [card]) p.accessible
            ((p.cards ++ [card]).length - 1)).length = p.cards.length + 1
        rw [swapIdx_length]
        simp
      · intro hok
        rw [Pile.deal_to, hp] at hok
        simp at hok
      · intro _
        rw [Pile.deal_to, hp]
    · have hpos : 0 < p.cards.length := Nat.pos_of_ne_zero hlen
      obtain ⟨hs, hl, -, -⟩ := Pile.pop_pos ρ p hρ hinv hpos
      obtain ⟨c, hc⟩ := Option.isSome_iff_exists.mp hs
      have hpop : p.pop ρ = (some c, (p.pop ρ).2) := by
        rcases hp : p.pop ρ with ⟨fst, snd⟩
        rw [hp] at hc
        simp only at hc
        rw [hc]
      obtain ⟨-, hskl, -, -, -⟩ := Pile.seek_pos ρ p hρ hinv hpos
      refine ⟨fun _ => hl, ?_, hskl, rfl, hρ p.cards, by simp [Pile.add_card], ?_, ?_, ?_⟩
      · intro hnone
        rw [hnone] at hc
        cases hc
      · show (swapIdx (p.cards ++ [card]) p.accessible
            ((p.cards ++ [card]).length - 1)).length = p.cards.length + 1
        rw [swapIdx_length]
        simp
      · intro _
        rw [Pile.deal_to, hpop]
        exact hl
      · intro herr
        rw [Pile.deal_to, hpop] at herr
        simp at herr

/-- Witness for `C6_pile_invariant`: a concrete two-call run and a
concrete `add_card` count. -/
theorem C6_witness :
    (0 ≤ (applyOps (Pile.of [Card.new .Spades .Five])
        [PileOp.shuffleOp id, PileOp.popOp id]).accessible ∧
      (applyOps (Pile.of [Card.new .Spades .Five])
        [PileOp.shuffleOp id, PileOp.popOp id]).accessible
        ≤ (applyOps (Pile.of [Card.new .Spades .Five])
            [PileOp.shuffleOp id, PileOp.popOp id]).cards.length) ∧
    ((Pile.of [Card.new .Spades .Five]).add_card (Card.new .Hearts .Nine)).cards.length
      = (Pile.of [Card.new .Spades .Five]).cards.length + 1 := by
  constructor
  · refine C6_pile_invariant.1 (Pile.of [Card.new .Spades .Five]) _ rfl ?_
    intro op hop
    rcases List.mem_cons.mp hop with h1 | h1
    · subst h1
      exact fun _ => rfl
    rcases List.mem_cons.mp h1 with h2 | h2
    · subst h2
      exact fun _ => rfl
    · cases h2
  · exact (C6_pile_invariant.2 (Pile.of [Card.new .Spades .Five]) id
      (Card.new .Hearts .Nine) Hand.new (fun _ => rfl) (Nat.zero_le _)).2.2.2.2.2.1

theorem length_flatten_replicate (n : Nat) (l : List Card) :
    (List.flatten (List.replicate n l)).length = n * l.length := by
  induction n with
  | zero => simp
  | succ k ih =>
    rw [List.replicate_succ, List.flatten_cons, List.length_append, ih]
    ring

theorem count_flatten_replicate (n : Nat) (l : List Card) (c : Card) :
    (List.flatten (List.replicate n l)).count c = n * l.count c := by
  induction n with
  | zero => simp
  | succ k ih =>
    rw [List.replicate_succ, List.flatten_cons, List.count_append, ih]
    ring

/-- C2 counterexample: `generate_n_decks(2, 2)` has `108` cards but two red
jokers (not exactly one), two copies of the five of spades (not four), and
`108 ≠ 52·2 + 2`: the jokers are emitted once per deck repetition. -/
theorem C2_cex :
    (generate_n_decks 2 2).map (fun l => l.count (Card.new_joker .Red)) = some 2 ∧
    (2 : Nat) ≠ 1 ∧
    (generate_n_decks 2 2).map (fun l => l.count (Card.new .Spades .Five)) = some 2 ∧
    (2 : Nat) ≠ 4 ∧
    (generate_n_decks 2 2).map List.length = some 108 ∧
    (108 : Nat) ≠ 52 * 2 + 2 := by
  decide

/-- C2 as amended: `generate_n_decks(n, j)` with `j ≤ 3` yields
`n * (52 + j)` cards, with each of the first `j` jokers (red, black, white
order) appearing once per deck repetition, i.e. `n` times; `j > 3` is
rejected.  Concretely `generate_n_decks(2, 2)` has `108` cards, `2` of each
(suit, rank) pair, `2` red and `2` black jokers and no white joker, and
`generate_n_decks(1, 4)` is rejected. -/
theorem C2_amended :
    (∀ n j, j ≤ 3 →
      ∃ l, generate_n_decks n j = some l ∧ l.length = n * (52 + j) ∧
        l.count (Card.new_joker .Red) = (if 1 ≤ j then n else 0) ∧
        l.count (Card.new_joker .Black) = (if 2 ≤ j then n else 0) ∧
        l.count (Card.new_joker .White) = (if 3 ≤ j then n else 0)) ∧
    (∀ n j, 3 < j → generate_n_decks n j = none) ∧
    ((generate_n_decks 2 2).map List.length = some 108) ∧
    (∀ s r, (generate_n_decks 2 2).map (fun l => l.count (Card.new s r)) = some 2) ∧
    ((generate_n_decks 2 2).map
        (fun l => (l.count (Card.new_joker .Red), l.count (Card.new_joker .Black),
          l.count (Card.new_joker .White))) = some (2, 2, 0)) ∧
    (generate_n_decks 1 4 = none) := by
  refine ⟨?_, ?_, by decide, by decide, by decide, by decide⟩
  · intro n j hj
    have hng : ¬ (j > 3) := by omega
    refine ⟨List.flatten (List.replicate n (deckOnce j)),
      by rw [generate_n_decks, if_neg hng], ?_, ?_, ?_, ?_⟩
    · rw [length_flatten_replicate]
      interval_cases j
      · rw [show (deckOnce 0).length = 52 from by decide]
      · rw [show (deckOnce 1).length = 53 from by decide]
      · rw [show (deckOnce 2).length = 54 from by decide]
      · rw [show (deckOnce 3).length = 55 from by decide]
    · rw [count_flatten_replicate]
      interval_cases j
      · rw [show (deckOnce 0).count (Card.new_joker .Red) = 0 from by decide]
        simp
      · rw [show (deckOnce 1).count (Card.new_joker .Red) = 1 from by decide]
        simp
      · rw [show (deckOnce 2).count (Card.new_joker .Red) = 1 from by decide]
        simp
      · rw [show (deckOnce 3).count (Card.new_joker .Red) = 1 from by decide]
        simp
    · rw [count_flatten_replicate]
      interval_cases j
      · rw [show (deckOnce 0).count (Card.new_joker .Black) = 0 from by decide]
        simp
      · rw [show (deckOnce 1).count (Card.new_joker .Black) = 0 from by decide]
        simp
      · rw [show (deckOnce 2).count (Card.new_joker .Black) = 1 from by decide]
        simp
      · rw [show (deckOnce 3).count (Card.new_joker .Black) = 1 from by decide]
        simp
    · rw [count_flatten_replicate]
      interval_cases j
      · rw [show (deckOnce 0).count (Card.new_joker .White) = 0 from by decide]
        simp
      · rw [show (deckOnce 1).count (Card.new_joker .White) = 0 from by decide]
        simp
      · rw [show (deckOnce 2).count (Card.new_joker .White) = 0 from by decide]
        simp
      · rw [show (deckOnce 3).count (Card.new_joker .White) = 1 from by decide]
        simp
  · intro n j hj
    rw [generate_n_decks, if_pos hj]

/-- Witness for `C2_amended` at `n = 2`, `j = 2`. -/
theorem C2_witness :
    ∃ l, generate_n_decks 2 2 = some l ∧ l.length = 2 * (52 + 2) ∧
      l.count (Card.new_joker .Red) = (if 1 ≤ 2 then 2 else 0) ∧
      l.count (Card.new_joker .Black) = (if 2 ≤ 2 then 2 else 0) ∧
      l.count (Card.new_joker .White) = (if 3 ≤ 2 then 2 else 0) :=
  C2_amended.1 2 2 (by decide)

/-- C5: for every variant configuration, `is_action_card` is true on Ace,
Two, Three, Four and Jack of every suit, equals the per-suit
on-everything flag on Queens, holds on a King exactly when its configured
war value is positive, is true on every joker, and is false on Five
through Ten of every suit; and under the default variant the King of
Spades has war value 5 and is a war card and an action card, the King of
Clubs has war value 0 and is neither, the Queen of Diamonds is not an
action card and the Queen of Spades is. -/
theorem C5_action_cards (v : MacauVariant) :
    (∀ s, v.is_action_card (Card.new s .Ace) = true) ∧
    (∀ s, v.is_action_card (Card.new s .Two) = true) ∧
    (∀ s, v.is_action_card (Card.new s .Three) = true) ∧
    (∀ s, v.is_action_card (Card.new s .Four) = true) ∧
    (∀ s, v.is_action_card (Card.new s .Jack) = true) ∧
    (v.is_action_card (Card.new .Spades .Queen) = v.queen_of_spades_on_everything) ∧
    (v.is_action_card (Card.new .Hearts .Queen) = v.queen_of_hearts_on_everything) ∧
    (v.is_action_card (Card.new .Diamonds .Queen) = v.queen_of_diamonds_on_everything) ∧
    (v.is_action_card (Card.new .Clubs .Queen) = v.queen_of_clubs_on_everything) ∧
    (∀ s, v.is_action_card (Card.new s .King)
      = decide (0 < v.get_war_value (Card.new s .King))) ∧
    (∀ jc, v.is_action_card (Card.new_joker jc) = true) ∧
    (∀ card, v.is_war_card card = decide (0 < v.get_war_value card)) ∧
    (∀ s, v.is_action_card (Card.new s .Five) = false) ∧
    (∀ s, v.is_action_card (Card.new s .Six) = false) ∧
    (∀ s, v.is_action_card (Card.new s .Seven) = false) ∧
    (∀ s, v.is_action_card (Card.new s .Eight) = false) ∧
    (∀ s, v.is_action_card (Card.new s .Nine) = false) ∧
    (∀ s, v.is_action_card (Card.new s .Ten) = false) ∧
    (MacauVariant.default.get_war_value (Card.new .Spades .King) = 5) ∧
    (MacauVariant.default.is_war_card (Card.new .Spades .King) = true) ∧
    (MacauVariant.default.is_action_card (Card.new .Spades .King) = true) ∧
    (MacauVariant.default.get_war_value (Card.new .Clubs .King) = 0) ∧
    (MacauVariant.default.is_war_card (Card.new .Clubs .King) = false) ∧
    (MacauVariant.default.is_action_card (Card.new .Clubs .King) = false) ∧
    (MacauVariant.default.is_action_card (Card.new .Diamonds .Queen) = false) ∧
    (MacauVariant.default.is_action_card (Card.new .Spades .Queen) = true) := by
  refine ⟨fun s => by cases s <;> rfl, fun s => by cases s <;> rfl,
    fun s => by cases s <;> rfl, fun s => by cases s <;> rfl,
    fun s => by cases s <;> rfl, rfl, rfl, rfl, rfl,
    fun s => by cases s <;> rfl, fun jc => by cases jc <;> rfl,
    fun card => rfl,
    fun s => by cases s <;> rfl, fun s => by cases s <;> rfl,
    fun s => by cases s <;> rfl, fun s => by cases s <;> rfl,
    fun s => by cases s <;> rfl, fun s => by cases s <;> rfl,
    by decide, by decide, by decide, by decide, by decide, by decide,
    by decide, by decide⟩

theorem alter_keeps_found (players : List MacauPlayer) (id : Nat)
    (f : MacauPlayer → Hand) :
    (players.map (fun p => if p.id = id then p else { p with hand := f p })).find?
        (fun p => p.id == id)
      = players.find? (fun p => p.id == id) := by
  induction players with
  | nil => rfl
  | cons q rest ih =>
    simp only [List.map_cons]
    by_cases hq : q.id = id
    · rw [if_pos hq, List.find?_cons_of_pos _ (by simpa using hq),
        List.find?_cons_of_pos _ (by simpa using hq)]
    · have hb : (q.id == id) = false := by simp [hq]
      have hb2 : ((if q.id = id then q else { q with hand := f q } : MacauPlayer).id == id)
          = false := by
        rw [if_neg hq]
        simpa using hq
      rw [List.find?_cons_of_neg _ (by rw [if_neg hq]; simpa using hq),
        List.find?_cons_of_neg _ (by simpa using hq)]
      exact ih

/-- C8: the `GameStart` builder used by `notify_customized` delivers to a
subscriber id exactly the hand of the player found by that id (never
another player's private hand), each delivery of `notify_customized` is
the builder applied to that subscriber's own id, and the delivered
`your_cards` is unchanged if every other player's hand is replaced
arbitrarily. -/
theorem C8_gamestart_privacy :
    (∀ (g : MacauGame) (top : Card) (id : Nat) (p : MacauPlayer),
        g.get_player_by_id id = some p →
        gameStartBuilder top g id
          = some (MacauEvent.GameStart g.players top p.hand.cards)) ∧
    (∀ (em : EventManager) (g : MacauGame) (top : Card) (id : Nat)
        (ev : Option MacauEvent),
        (id, ev) ∈ em.notify_customized g (gameStartBuilder top) →
        ev = gameStartBuilder top g id) ∧
    (∀ (g : MacauGame) (top : Card) (id : Nat) (f : MacauPlayer → Hand),
        ((gameStartBuilder top (alterOthers g id f) id).bind MacauEvent.yourCards)
          = ((gameStartBuilder top g id).bind MacauEvent.yourCards)) := by
  refine ⟨?_, ?_, ?_⟩
  · intro g top id p hp
    rw [gameStartBuilder, hp]
    rfl
  · intro em g top id ev hmem
    rw [EventManager.notify_customized] at hmem
    obtain ⟨i, hi, heq⟩ := List.mem_map.mp hmem
    obtain ⟨h1, h2⟩ := Prod.mk.injEq .. ▸ heq
    rw [← h2, h1]
  · intro g top id f
    have hfind : (alterOthers g id f).get_player_by_id id = g.get_player_by_id id := by
      rw [MacauGame.get_player_by_id, MacauGame.get_player_by_id]
      exact alter_keeps_found g.players id f
    rw [gameStartBuilder, gameStartBuilder, hfind]
    rcases g.get_player_by_id id with _ | p
    · rfl
    · rfl

/-- Witness for `C8_gamestart_privacy` on the two-player fixture. -/
theorem C8_witness :
    gameStartBuilder (Card.new .Hearts .Nine) gFix 1
      = some (MacauEvent.GameStart gFix.players (Card.new .Hearts .Nine)
          [Card.new .Spades .Five]) :=
  C8_gamestart_privacy.1 gFix (Card.new .Hearts .Nine) 1
    ⟨1, "A", ⟨[Card.new .Spades .Five]⟩⟩ rfl

theorem Pile.pop_some (ρ : List Card → List Card) (p : Pile) (c : Card) (p1 : Pile)
    (hρ : LenPres ρ) (hinv : p.inv) (h : p.pop ρ = (some c, p1)) :
    p1.cards.length + 1 = p.cards.length ∧ p1.inv := by
  by_cases hlen : p.cards.length = 0
  · rw [Pile.pop_empty ρ p (List.length_eq_zero.mp hlen)] at h
    simp at h
  · obtain ⟨-, h2, -, h4⟩ := Pile.pop_pos ρ p hρ hinv (Nat.pos_of_ne_zero hlen)
    rw [h] at h2 h4
    exact ⟨h2, h4⟩

theorem Pile.pop_succeeds (ρ : List Card → List Card) (p : Pile) (hρ : LenPres ρ)
    (hinv : p.inv) (hlen : 0 < p.cards.length) :
    ∃ c p1, p.pop ρ = (some c, p1) := by
  obtain ⟨hs, -, -, -⟩ := Pile.pop_pos ρ p hρ hinv hlen
  obtain ⟨c, hc⟩ := Option.isSome_iff_exists.mp hs
  refine ⟨c, (p.pop ρ).2, ?_⟩
  rcases hp : p.pop ρ with ⟨fst, snd⟩
  rw [hp] at hc
  simp only at hc
  rw [hc]

theorem dealHand_ok (ρ : List Card → List Card) (hρ : LenPres ρ) :
    ∀ (n : Nat) (pile : Pile) (player : MacauPlayer) (pile1 : Pile)
      (player1 : MacauPlayer),
      pile.inv → dealHand ρ pile player n = some (pile1, player1) →
      pile1.cards.length + n = pile.cards.length ∧ pile1.inv ∧
      player1.id = player.id ∧ player1.name = player.name ∧
      player1.hand.cards.length = player.hand.cards.length + n := by
  intro n
  induction n with
  | zero =>
    intro pile player pile1 player1 hinv h
    rw [dealHand] at h
    obtain ⟨h1, h2⟩ := Prod.mk.injEq .. ▸ (Option.some.inj h)
    subst h1
    subst h2
    exact ⟨rfl, hinv, rfl, rfl, rfl⟩
  | succ k ih =>
    intro pile player pile1 player1 hinv h
    rw [dealHand] at h
    rcases hpop : pile.pop ρ with ⟨fst, snd⟩
    rw [hpop] at h
    cases fst with
    | none => simp at h
    | some card =>
      simp only at h
      obtain ⟨hl, hi⟩ := Pile.pop_some ρ pile card snd hρ hinv hpop
      obtain ⟨h1, h2, h3, h4, h5⟩ :=
        ih snd { player with hand := player.hand.add_card card } pile1 player1 hi h
      refine ⟨by omega, h2, h3, h4, ?_⟩
      rw [h5]
      have hins : ({ player with hand := player.hand.add_card card }
          : MacauPlayer).hand.cards.length = player.hand.cards.length + 1 :=
        length_insertSorted card player.hand.cards
      omega

theorem dealHand_succeeds (ρ : List Card → List Card) (hρ : LenPres ρ) :
    ∀ (n : Nat) (pile : Pile) (player : MacauPlayer),
      pile.inv → n ≤ pile.cards.length →
      ∃ pile1 player1, dealHand ρ pile player n = some (pile1, player1) := by
  intro n
  induction n with
  | zero =>
    intro pile player hinv hn
    exact ⟨pile, player, rfl⟩
  | succ k ih =>
    intro pile player hinv hn
    obtain ⟨c, p1, hpop⟩ := Pile.pop_succeeds ρ pile hρ hinv (by omega)
    obtain ⟨hl, hi⟩ := Pile.pop_some ρ pile c p1 hρ hinv hpop
    obtain ⟨pile1, player1, hdeal⟩ :=
      ih p1 { player with hand := player.hand.add_card c } hi (by omega)
    refine ⟨pile1, player1, ?_⟩
    rw [dealHand, hpop]
    exact hdeal

theorem dealAll_ok (ρ : List Card → List Card) (hρ : LenPres ρ) (n : Nat) :
    ∀ (ps : List MacauPlayer) (pile pile2 : Pile) (ps1 : List MacauPlayer),
      pile.inv → dealAll ρ pile n ps = some (pile2, ps1) →
      pile2.cards.length + ps.length * n = pile.cards.length ∧ pile2.inv ∧
      ps1.map MacauPlayer.id = ps.map MacauPlayer.id ∧
      (ps1.map (fun p => p.hand.cards.length)).sum
        = (ps.map (fun p => p.hand.cards.length)).sum + ps.length * n := by
  intro ps
  induction ps with
  | nil =>
    intro pile pile2 ps1 hinv h
    rw [dealAll] at h
    obtain ⟨h1, h2⟩ := Prod.mk.injEq .. ▸ (Option.some.inj h)
    subst h1
    subst h2
    exact ⟨by simp, hinv, rfl, by simp⟩
  | cons q rest ih =>
    intro pile pile2 ps1 hinv h
    rw [dealAll] at h
    rcases hdh : dealHand ρ pile q n with _ | ⟨⟨pileA, qA⟩⟩
    · rw [hdh] at h
      simp at h
    · rw [hdh] at h
      dsimp only at h
      rcases hda : dealAll ρ pileA n rest with _ | ⟨⟨pileB, restB⟩⟩
      · rw [hda] at h
        simp at h
      · rw [hda] at h
        dsimp only at h
        obtain ⟨h1, h2⟩ := Prod.mk.injEq .. ▸ (Option.some.inj h)
        subst h1
        subst h2
        obtain ⟨ha1, ha2, ha3, ha4, ha5⟩ := dealHand_ok ρ hρ n pile q pileA qA hinv hdh
        obtain ⟨hb1, hb2, hb3, hb4⟩ := ih pileA pileB restB ha2 hda
        have he : (q :: rest).length * n = rest.length * n + n := by
          simp [List.length_cons]
          ring
        refine ⟨by omega, hb2, ?_, ?_⟩
        · simp [ha3, hb3]
        · simp only [List.map_cons, List.sum_cons, hb4, ha5]
          omega

theorem dealAll_succeeds (ρ : List Card → List Card) (hρ : LenPres ρ) (n : Nat) :
    ∀ (ps : List MacauPlayer) (pile : Pile),
      pile.inv → ps.length * n ≤ pile.cards.length →
      ∃ pile2 ps1, dealAll ρ pile n ps = some (pile2, ps1) := by
  intro ps
  induction ps with
  | nil =>
    intro pile hinv hn
    exact ⟨pile, [], rfl⟩
  | cons q rest ih =>
    intro pile hinv hn
    have he : (q :: rest).length * n = rest.length * n + n := by
      simp [List.length_cons]
      ring
    obtain ⟨pileA, qA, hdh⟩ := dealHand_succeeds ρ hρ n pile q hinv (by omega)
    obtain ⟨ha1, ha2, -, -, -⟩ := dealHand_ok ρ hρ n pile q pileA qA hinv hdh
    obtain ⟨pileB, restB, hda⟩ := ih pileA ha2 (by omega)
    refine ⟨pileB, qA :: restB, ?_⟩
    rw [dealAll, hdh]
    dsimp only
    rw [hda]

theorem new_elim (variant : MacauVariant) (names : List String) (idOf : Nat → Nat)
    (ρ : List Card → List Card) (g : MacauGame)
    (ds : List (Nat × Option MacauEvent))
    (h : MacauGame.new variant names idOf ρ = some (g, ds)) :
    ∃ pile1 players1 top_card,
      dealAll ρ (Pile.of (List.flatten (List.replicate 1 (deckOnce 3))))
          variant.initial_hand
          (names.enum.map
            (fun p => { id := idOf p.1, name := p.2, hand := Hand.new : MacauPlayer }))
        = some (pile1, players1) ∧
      (pile1.seek ρ).1 = some top_card ∧
      g = { variant := variant, pile := (pile1.seek ρ).2, players := players1,
            event_manager := EventManager.new } ∧
      ds = [] := by
  rw [MacauGame.new] at h
  rw [show generate_deck 3
      = some (List.flatten (List.replicate 1 (deckOnce 3))) from rfl] at h
  dsimp only at h
  rcases hda : dealAll ρ (Pile.of (List.flatten (List.replicate 1 (deckOnce 3))))
      variant.initial_hand
      (names.enum.map
        (fun p => { id := idOf p.1, name := p.2, hand := Hand.new : MacauPlayer }))
    with _ | ⟨⟨pile1, players1⟩⟩
  · rw [hda] at h
    simp at h
  · rw [hda] at h
    dsimp only at h
    rcases hs : (pile1.seek ρ).1 with _ | top_card
    · rw [hs] at h
      simp at h
    · rw [hs] at h
      dsimp only at h
      obtain ⟨h1, h2⟩ := Prod.mk.injEq .. ▸ (Option.some.inj h)
      exact ⟨pile1, players1, top_card, hda, hs, h1.symm, h2.symm⟩

theorem Pile.seek_some_len (ρ : List Card → List Card) (p : Pile) (t : Card)
    (hρ : LenPres ρ) (hinv : p.inv) (h : (p.seek ρ).1 = some t) :
    (p.seek ρ).2.cards.length = p.cards.length ∧
    0 < (p.seek ρ).2.accessible ∧ (p.seek ρ).2.inv := by
  by_cases hlen : p.cards.length = 0
  · rw [Pile.seek_empty ρ p (List.length_eq_zero.mp hlen)] at h
    simp at h
  · obtain ⟨-, h2, -, h4, h5⟩ := Pile.seek_pos ρ p hρ hinv (Nat.pos_of_ne_zero hlen)
    exact ⟨h2, h4, h5⟩

/-- C10: at the moment `MacauGame::new` broadcasts `GameStart`, the freshly
constructed `EventManager` has no subscribers, so the notification delivers
to nobody. -/
theorem C10_no_subscribers (variant : MacauVariant) (names : List String)
    (idOf : Nat → Nat) (ρ : List Card → List Card) (g : MacauGame)
    (ds : List (Nat × Option MacauEvent))
    (h : MacauGame.new variant names idOf ρ = some (g, ds)) :
    g.event_manager = EventManager.new ∧ g.event_manager.subscribers = [] ∧
    ds = [] := by
  obtain ⟨pile1, players1, top, -, -, hg, hds⟩ := new_elim variant names idOf ρ g ds h
  subst hg
  exact ⟨rfl, rfl, hds⟩

/-- Witness for `C10_no_subscribers`: the concrete one-player game. -/
theorem C10_witness :
    (MacauGame.new MacauVariant.default ["A"] (fun _ => 0) id).map
        (fun pr => (pr.1.event_manager.subscribers, pr.2)) = some ([], []) := by
  rcases hn : MacauGame.new MacauVariant.default ["A"] (fun _ => 0) id
    with _ | ⟨⟨g, ds⟩⟩
  · have hsome : (MacauGame.new MacauVariant.default ["A"] (fun _ => 0) id).isSome
        = true := by decide
    rw [hn] at hsome
    simp at hsome
  · obtain ⟨-, h2, h3⟩ := C10_no_subscribers _ _ _ _ g ds hn
    simp [h2, h3]

/-- C9: any constructed game holds exactly the 55 cards of one standard
52-card deck plus 3 jokers, split between the pile and the hands, whatever
the variant and the player list: the deck and joker counts are hard-coded. -/
theorem C9_hardcoded_deck (variant : MacauVariant) (names : List String)
    (idOf : Nat → Nat) (ρ : List Card → List Card) (hρ : LenPres ρ)
    (g : MacauGame) (ds : List (Nat × Option MacauEvent))
    (h : MacauGame.new variant names idOf ρ = some (g, ds)) :
    g.pile.cards.length + (g.players.map (fun p => p.hand.cards.length)).sum = 55 ∧
    (∃ d, generate_deck 3 = some d ∧ d.length = 55 ∧
      (∀ s r, d.count (Card.new s r) = 1) ∧
      d.count (Card.new_joker .Red) = 1 ∧
      d.count (Card.new_joker .Black) = 1 ∧
      d.count (Card.new_joker .White) = 1) := by
  obtain ⟨pile1, players1, top, hda, hs, hg, -⟩ := new_elim variant names idOf ρ g ds h
  obtain ⟨h1, h2, -, h4⟩ := dealAll_ok ρ hρ variant.initial_hand _ _ pile1 players1
    (Nat.zero_le _) hda
  have hd55 : (Pile.of (List.flatten (List.replicate 1 (deckOnce 3)))).cards.length
      = 55 := by decide
  have hsum0 : ((names.enum.map
      (fun p => { id := idOf p.1, name := p.2, hand := Hand.new : MacauPlayer })).map
        (fun p => p.hand.cards.length)).sum = 0 := by
    rw [List.map_map]
    have hc : ((fun (p : MacauPlayer) => p.hand.cards.length) ∘
        (fun (p : Nat × String) =>
          { id := idOf p.1, name := p.2, hand := Hand.new : MacauPlayer }))
        = fun _ => 0 := rfl
    rw [hc]
    simp
  obtain ⟨hl2, -, -⟩ := Pile.seek_some_len ρ pile1 top hρ h2 hs
  subst hg
  constructor
  · show (pile1.seek ρ).2.cards.length
        + (players1.map (fun p => p.hand.cards.length)).sum = 55
    rw [hl2]
    omega
  · exact ⟨_, rfl, by decide, by decide, by decide, by decide, by decide⟩

/-- Witness for `C9_hardcoded_deck`: the concrete one-player game holds 55
cards in total. -/
theorem C9_witness :
    (MacauGame.new MacauVariant.default ["A"] (fun _ => 0) id).map
        (fun pr => pr.1.pile.cards.length
          + (pr.1.players.map (fun p => p.hand.cards.length)).sum) = some 55 := by
  rcases hn : MacauGame.new MacauVariant.default ["A"] (fun _ => 0) id
    with _ | ⟨⟨g, ds⟩⟩
  · have hsome : (MacauGame.new MacauVariant.default ["A"] (fun _ => 0) id).isSome
        = true := by decide
    rw [hn] at hsome
    simp at hsome
  · obtain ⟨h1, -⟩ := C9_hardcoded_deck _ _ _ _ (fun _ => rfl) g ds hn
    simp [h1]

theorem find_self (ps : List MacauPlayer) (hnd : (ps.map MacauPlayer.id).Nodup)
    (p : MacauPlayer) (hp : p ∈ ps) :
    ps.find? (fun q => q.id == p.id) = some p := by
  induction ps with
  | nil => cases hp
  | cons q rest ih =>
    rcases List.mem_cons.mp hp with h | h
    · subst h
      exact List.find?_cons_of_pos _ (by simp)
    · have hnd2 : (rest.map MacauPlayer.id).Nodup :=
        (List.nodup_cons.mp (by simpa using hnd)).2
      have hqne : q.id ≠ p.id := by
        intro he
        exact (List.nodup_cons.mp (by simpa using hnd)).1
          (he ▸ List.mem_map_of_mem MacauPlayer.id h)
      rw [List.find?_cons_of_neg _ (by simpa using hqne)]
      exact ih hnd2 h

/-- C7 counterexample: with an id source that returns `7` twice, the two
players of a constructed game share the id `7`: `MacauGame::new` draws a
random id per player with no uniqueness check. -/
theorem C7_cex :
    (MacauGame.new MacauVariant.default ["A", "B"] (fun _ => 7) id).map
        (fun pr => pr.1.players.map MacauPlayer.id) = some [7, 7] ∧
    ¬ ([7, 7] : List Nat).Nodup := by
  constructor
  · decide
  · decide

/-- C7 as amended: the players' ids are exactly the raw values drawn from
the id source (index by index, no uniqueness enforcement); they are
pairwise distinct only when those drawn values are, and in that case
`get_player_by_id` identifies each player uniquely. -/
theorem C7_amended (variant : MacauVariant) (names : List String)
    (idOf : Nat → Nat) (ρ : List Card → List Card) (hρ : LenPres ρ)
    (g : MacauGame) (ds : List (Nat × Option MacauEvent))
    (h : MacauGame.new variant names idOf ρ = some (g, ds)) :
    g.players.map MacauPlayer.id = (List.range names.length).map idOf ∧
    (((List.range names.length).map idOf).Nodup →
      (g.players.map MacauPlayer.id).Nodup ∧
      ∀ p ∈ g.players, g.get_player_by_id p.id = some p) := by
  obtain ⟨pile1, players1, top, hda, -, hg, -⟩ := new_elim variant names idOf ρ g ds h
  obtain ⟨-, -, hid, -⟩ := dealAll_ok ρ hρ variant.initial_hand _ _ pile1 players1
    (Nat.zero_le _) hda
  have hps0 : ((names.enum.map
      (fun p => { id := idOf p.1, name := p.2, hand := Hand.new : MacauPlayer })).map
        MacauPlayer.id) = (List.range names.length).map idOf := by
    rw [List.map_map]
    have h1 : (MacauPlayer.id ∘
        (fun p => { id := idOf p.1, name := p.2, hand := Hand.new : MacauPlayer }))
        = (idOf ∘ Prod.fst) := rfl
    rw [h1, ← List.map_map, List.enum_map_fst]
  subst hg
  have hmain : players1.map MacauPlayer.id = (List.range names.length).map idOf :=
    hid.trans hps0
  refine ⟨hmain, fun hnd => ?_⟩
  have hnd1 : (players1.map MacauPlayer.id).Nodup := hmain ▸ hnd
  refine ⟨hnd1, fun p hp => ?_⟩
  show players1.find? (fun q => q.id == p.id) = some p
  exact find_self players1 hnd1 p hp

/-- Witness for `C7_amended`: distinct id draws give distinct player ids. -/
theorem C7_witness :
    (MacauGame.new MacauVariant.default ["A", "B"] (fun i => i + 10) id).map
        (fun pr => pr.1.players.map MacauPlayer.id) = some [10, 11] := by
  rcases hn : MacauGame.new MacauVariant.default ["A", "B"] (fun i => i + 10) id
    with _ | ⟨⟨g, ds⟩⟩
  · have hsome : (MacauGame.new MacauVariant.default ["A", "B"] (fun i => i + 10)
        id).isSome = true := by decide
    rw [hn] at hsome
    simp at hsome
  · obtain ⟨h1, -⟩ := C7_amended _ _ _ _ (fun _ => rfl) g ds hn
    simp [h1]
    decide

/-- C1 counterexample: with the identity shuffle, the default variant and
one player, `MacauGame::new` finishes with the Jack of Clubs — an action
card — on top of the pile, although the deck does contain eligible
(standard, non-action) cards such as the Five of Spades: `new` performs no
filtering loop on the exposed top card. -/
theorem C1_cex :
    (MacauGame.new MacauVariant.default ["A"] (fun _ => 0) id).map
        (fun pr => pr.1.pile.try_seek) = some (some (Card.new .Clubs .Jack)) ∧
    MacauVariant.default.is_action_card (Card.new .Clubs .Jack) = true ∧
    (generate_deck 3).map (fun d => d.count (Card.new .Spades .Five)) = some 1 ∧
    (Card.new .Spades .Five).is_standard_card = true ∧
    MacauVariant.default.is_action_card (Card.new .Spades .Five) = false := by
  refine ⟨by decide, by decide, by decide, by decide, by decide⟩

/-- C1 as amended: `MacauGame::new` succeeds (and the final pile exposes a
top card) for every variant, id source and length-preserving shuffle
whenever the deal leaves at least one of the 55 cards in the pile; the code
applies no eligibility filter, so nothing more about that card can be
guaranteed. -/
theorem C1_amended (variant : MacauVariant) (names : List String)
    (idOf : Nat → Nat) (ρ : List Card → List Card) (hρ : LenPres ρ)
    (hcap : names.length * variant.initial_hand + 1 ≤ 55) :
    ∃ g ds, MacauGame.new variant names idOf ρ = some (g, ds) ∧
      g.pile.try_seek.isSome = true := by
  have hlen0 : ((names.enum.map
      (fun p => { id := idOf p.1, name := p.2, hand := Hand.new : MacauPlayer }))).length
      = names.length := by
    simp
  have hd55 : (Pile.of (List.flatten (List.replicate 1 (deckOnce 3)))).cards.length
      = 55 := by decide
  obtain ⟨pile1, players1, hda⟩ := dealAll_succeeds ρ hρ variant.initial_hand
    (names.enum.map
      (fun p => { id := idOf p.1, name := p.2, hand := Hand.new : MacauPlayer }))
    (Pile.of (List.flatten (List.replicate 1 (deckOnce 3)))) (Nat.zero_le _)
    (by rw [hlen0, hd55]; omega)
  obtain ⟨h1, h2, -, -⟩ := dealAll_ok ρ hρ variant.initial_hand _ _ pile1 players1
    (Nat.zero_le _) hda
  rw [hlen0, hd55] at h1
  have hp1 : 0 < pile1.cards.length := by omega
  obtain ⟨hs1, -, -, hs4, hs5⟩ := Pile.seek_pos ρ pile1 hρ h2 hp1
  obtain ⟨t, ht⟩ := Option.isSome_iff_exists.mp hs1
  have hnew : MacauGame.new variant names idOf ρ
      = some (MacauGame.mk variant (pile1.seek ρ).2 players1 EventManager.new,
          ([] : List (Nat × Option MacauEvent))) := by
    rw [MacauGame.new,
      show generate_deck 3
        = some (List.flatten (List.replicate 1 (deckOnce 3))) from rfl]
    dsimp only
    rw [hda]
    dsimp only
    rw [ht]
    rfl
  exact ⟨_, _, hnew, Pile.try_seek_isSome (pile1.seek ρ).2 hs5 hs4⟩

/-- Witness for `C1_amended`: the concrete one-player default game. -/
theorem C1_witness :
    ∃ g ds, MacauGame.new MacauVariant.default ["A"] (fun _ => 0) id
        = some (g, ds) ∧ g.pile.try_seek.isSome = true :=
  C1_amended MacauVariant.default ["A"] (fun _ => 0) id (fun _ => rfl) (by decide)


end Macau
